import Mathlib

/-!
Shallow embedding of the student-wellbeing EDA script (src/ide.py).

A `Row` is one record of the CSV; numeric cells are `Option ℚ` (a `none`
models a missing value / NaN), categorical cells are `Option String`.
The cleaning stage (drop_duplicates, then per-column median fill in the
listed order), the encoded analysis view, the correlation listing, the
sleep-hours binning, the screen-time median split, and the
extracurricular mean difference are all embedded as executable
functions on lists of rows.
-/

/-- One student record, as loaded from the CSV.  Numeric columns are
`Option ℚ` (`none` = missing / NaN); the two categorical columns are
`Option String`. -/
structure Row where
  studentId : String
  hoursStudy : Option ℚ
  sleepHours : Option ℚ
  screenTime : Option ℚ
  attendance : Option ℚ
  cgpa : Option ℚ
  extracurricular : Option String
  stressLevel : Option String
deriving DecidableEq, Repr

/-- The five numeric columns of the dataset, in the order of the source's
`numerical_cols` list. -/
inductive Col where
  | hoursStudy
  | sleepHours
  | screenTime
  | attendance
  | cgpa
deriving DecidableEq, Repr

/-- Column name as it appears in the CSV header. -/
def Col.name : Col → String
  | .hoursStudy => "Hours_Study"
  | .sleepHours => "Sleep_Hours"
  | .screenTime => "Screen_Time"
  | .attendance => "Attendance"
  | .cgpa => "CGPA"

/-- Read a numeric column of a row. -/
def Col.get : Col → Row → Option ℚ
  | .hoursStudy, r => r.hoursStudy
  | .sleepHours, r => r.sleepHours
  | .screenTime, r => r.screenTime
  | .attendance, r => r.attendance
  | .cgpa, r => r.cgpa

/-- Overwrite a numeric column of a row. -/
def Col.set : Col → Option ℚ → Row → Row
  | .hoursStudy, v, r => { r with hoursStudy := v }
  | .sleepHours, v, r => { r with sleepHours := v }
  | .screenTime, v, r => { r with screenTime := v }
  | .attendance, v, r => { r with attendance := v }
  | .cgpa, v, r => { r with cgpa := v }

/-- The source's `numerical_cols` list, in order. -/
def numericalCols : List Col :=
  [.hoursStudy, .sleepHours, .screenTime, .attendance, .cgpa]

/-- The non-missing values of a numeric column, in row order. -/
def colVals (c : Col) (d : List Row) : List ℚ :=
  (d.map c.get).reduceOption

/-- Helper for `dropDuplicates`: keep each row not already seen
(`keep=first` semantics of pandas `drop_duplicates`). -/
def dedupFrom : List Row → List Row → List Row
  | _, [] => []
  | seen, r :: rs =>
      if r ∈ seen then dedupFrom seen rs else r :: dedupFrom (r :: seen) rs

/-- The source's `df.drop_duplicates()`: remove exact-duplicate rows,
keeping the first occurrence of each. -/
def dropDuplicates (d : List Row) : List Row :=
  dedupFrom [] d

/-- Median of a list of rationals in the pandas sense: sort, take the
middle element for odd length, the mean of the two middle elements for
even length; `none` for the empty list (pandas returns NaN there). -/
def medianQ (l : List ℚ) : Option ℚ :=
  let s := List.insertionSort (· ≤ ·) l
  match s with
  | [] => none
  | _ :: _ =>
      let n := s.length
      if n % 2 = 1 then some (s.getD (n / 2) 0)
      else some ((s.getD (n / 2 - 1) 0 + s.getD (n / 2) 0) / 2)

/-- One pass of the source's fill loop body for a column `c`:
if the column has any missing value, compute its median over the
non-missing entries and fill the missing entries with it (a NaN median,
i.e. an all-missing column, leaves the column unchanged, as
`fillna(NaN)` does). -/
def fillCol (c : Col) (d : List Row) : List Row :=
  if 0 < d.countP (fun r => (c.get r).isNone) then
    match medianQ (colVals c d) with
    | none => d
    | some m => d.map (fun r => if (c.get r).isNone then c.set (some m) r else r)
  else d

/-- The source's fill loop over `numerical_cols`, in the listed order. -/
def fillAll (d : List Row) : List Row :=
  numericalCols.foldl (fun acc c => fillCol c acc) d

/-- The whole cleaning stage: duplicate removal followed by the median
fill loop (source lines 34-43). -/
def clean (d : List Row) : List Row :=
  fillAll (dropDuplicates d)

/-- One row of the analysis view `df_analysis`: the identifier is
dropped and the two categorical columns are numerically encoded
(`Option ℚ`, a `none` being a NaN produced by an unmapped label). -/
structure ARow where
  hoursStudy : Option ℚ
  sleepHours : Option ℚ
  screenTime : Option ℚ
  attendance : Option ℚ
  cgpa : Option ℚ
  extracurricular : Option ℚ
  stressLevel : Option ℚ
deriving DecidableEq, Repr

/-- The source's `map({'Yes': 1, 'No': 0})` on `Extracurricular`:
any other value (a different label, or an already missing cell) maps
to NaN. -/
def encodeExt : Option String → Option ℚ
  | some "Yes" => some 1
  | some "No" => some 0
  | _ => none

/-- The source's `map({'Low': 0, 'Medium': 1, 'High': 2})` on
`Stress_Level`. -/
def encodeStress : Option String → Option ℚ
  | some "Low" => some 0
  | some "Medium" => some 1
  | some "High" => some 2
  | _ => none

/-- Encode one row for the analysis view (drop `Student_ID`, encode the
two categorical columns, keep the numeric columns). -/
def encodeRow (r : Row) : ARow :=
  { hoursStudy := r.hoursStudy
    sleepHours := r.sleepHours
    screenTime := r.screenTime
    attendance := r.attendance
    cgpa := r.cgpa
    extracurricular := encodeExt r.extracurricular
    stressLevel := encodeStress r.stressLevel }

/-- The source's `df_analysis` construction (lines 49-53). -/
def toAnalysis (d : List Row) : List ARow :=
  d.map encodeRow

/-- Read a numeric column of an analysis-view row. -/
def Col.aget : Col → ARow → Option ℚ
  | .hoursStudy, r => r.hoursStudy
  | .sleepHours, r => r.sleepHours
  | .screenTime, r => r.screenTime
  | .attendance, r => r.attendance
  | .cgpa, r => r.cgpa

/-- Arithmetic mean in the pandas sense: NaNs are already filtered out
by the caller, and the mean of an empty list is NaN (`none`). -/
def meanQ (l : List ℚ) : Option ℚ :=
  if l.isEmpty then none else some (l.sum / l.length)

/-- Round a rational to the nearest integer, ties to even (the
round-half-even convention of the underlying numeric library). -/
def roundHE (q : ℚ) : ℤ :=
  let f := ⌊q⌋
  if q - f < 1 / 2 then f
  else if 1 / 2 < q - f then f + 1
  else if f % 2 = 0 then f else f + 1

/-- The library's `.round(2)`: round to two decimal places. -/
def rnd2 (x : ℚ) : ℚ :=
  (roundHE (100 * x) : ℚ) / 100

/-- The source's `pd.cut(..., bins=[0, 6, 8, 24], labels=['<6h', '6-8h', '>8h'])`
applied to one cell: intervals (0,6], (6,8], (8,24], anything outside
them (and a missing cell) gets no label. -/
def sleepBin : Option ℚ → Option String
  | none => none
  | some x =>
      if x ≤ 0 then none
      else if x ≤ 6 then some "<6h"
      else if x ≤ 8 then some "6-8h"
      else if x ≤ 24 then some ">8h"
      else none

/-- CGPA values of the rows falling in the sleep bucket `lbl`. -/
def sleepCgpas (d : List ARow) (lbl : String) : List ℚ :=
  (d.filter (fun r => decide (sleepBin r.sleepHours = some lbl))).filterMap ARow.cgpa

/-- The source's `sleep_insight` for one bucket label: mean CGPA of the
bucket's rows, rounded to two decimals (NaN for an empty bucket). -/
def sleepInsight (d : List ARow) (lbl : String) : Option ℚ :=
  (meanQ (sleepCgpas d lbl)).map rnd2

/-- The source's `median_screen` (line 107). -/
def medianScreen (d : List ARow) : Option ℚ :=
  medianQ ((d.map ARow.screenTime).reduceOption)

/-- Rows with `Screen_Time` at most the median (`df[df['Screen_Time'] <= median_screen]`);
a NaN median or a NaN cell makes the comparison false, excluding the row. -/
def lowGroup (d : List ARow) : List ARow :=
  match medianScreen d with
  | none => []
  | some m => d.filter (fun r =>
      match r.screenTime with
      | some x => decide (x ≤ m)
      | none => false)

/-- Rows with `Screen_Time` strictly above the median. -/
def highGroup (d : List ARow) : List ARow :=
  match medianScreen d with
  | none => []
  | some m => d.filter (fun r =>
      match r.screenTime with
      | some x => decide (m < x)
      | none => false)

/-- The source's `low_screen_cgpa` (line 109). -/
def lowScreenCgpa (d : List ARow) : Option ℚ :=
  (meanQ ((lowGroup d).filterMap ARow.cgpa)).map rnd2

/-- The source's `high_screen_cgpa` (line 108). -/
def highScreenCgpa (d : List ARow) : Option ℚ :=
  (meanQ ((highGroup d).filterMap ARow.cgpa)).map rnd2

/-- CGPA values of the rows whose encoded `Extracurricular` equals `k`
(the groupby key; rows whose encoded value is NaN belong to no group). -/
def extraCgpas (d : List ARow) (k : ℚ) : List ℚ :=
  (d.filter (fun r => decide (r.extracurricular = some k))).filterMap ARow.cgpa

/-- The `mean` cell of `extra_analysis` for the group keyed `k`:
mean CGPA of the group, rounded to two decimals. -/
def extraMeanR (d : List ARow) (k : ℚ) : Option ℚ :=
  (meanQ (extraCgpas d k)).map rnd2

/-- The source's `extra_diff` (line 144): mean CGPA of the Yes group
minus mean CGPA of the No group (both as rounded by `extra_analysis`);
`none` when a group is absent or its mean is NaN. -/
def extraDiff (d : List ARow) : Option ℚ :=
  match extraMeanR d 1, extraMeanR d 0 with
  | some a, some b => some (a - b)
  | _, _ => none

/-- Exact representation of one Pearson correlation against CGPA:
`num` is the centered cross sum Σ(x-x̄)(y-ȳ), `denx` and `deny` the
centered square sums of the two columns, all over the rows where both
columns are non-missing; the correlation value is
`num / (sqrt denx * sqrt deny)`. -/
structure CorrRep where
  num : ℚ
  denx : ℚ
  deny : ℚ
deriving DecidableEq, Repr

/-- The rows where both the column `c` and CGPA are non-missing,
as (x, y) pairs — the pairwise-complete observations that
`DataFrame.corr` uses. -/
def pairsFor (c : Col) (d : List ARow) : List (ℚ × ℚ) :=
  d.filterMap (fun r =>
    match c.aget r, r.cgpa with
    | some x, some y => some (x, y)
    | _, _ => none)

/-- Centered sums of a list of observation pairs. -/
def corrRep (pts : List (ℚ × ℚ)) : CorrRep :=
  let n : ℚ := pts.length
  let xb := (pts.map Prod.fst).sum / n
  let yb := (pts.map Prod.snd).sum / n
  { num := (pts.map (fun p => (p.1 - xb) * (p.2 - yb))).sum
    denx := (pts.map (fun p => (p.1 - xb) ^ 2)).sum
    deny := (pts.map (fun p => (p.2 - yb) ^ 2)).sum }

/-- Rational sort key whose order agrees with the order of the real
correlation values `num / sqrt (denx * deny)` whenever the denominators
are positive: the sign-preserving square `±(num² / (denx·deny))`. -/
def sortKey (c : CorrRep) : ℚ :=
  if 0 ≤ c.num then c.num ^ 2 / (c.denx * c.deny)
  else -(c.num ^ 2 / (c.denx * c.deny))

/-- The source's `correlations` (line 60): the CGPA column of the
correlation matrix of the five `corr_cols`, sorted in descending order
of correlation value (ties in any order). -/
def correlations (d : List ARow) : List (String × CorrRep) :=
  List.insertionSort (fun a b => sortKey b.2 ≤ sortKey a.2)
    (numericalCols.map (fun c => (c.name, corrRep (pairsFor c d))))

/-- The variables of the script that persist between stages: the
cleaned `df`, the analysis copy `df_analysis`, and the analysis copy
after the `Sleep_Bin` column is added to it (insight 2). -/
structure ScriptState where
  df : List Row
  dfAnalysis : List ARow
  binned : List (ARow × Option String)
deriving Repr

/-- The script's flow from load to export, in program order: clean `df`
in place, derive `df_analysis` from it, later extend only the analysis
copy with the `Sleep_Bin` column; `df` is never reassigned after the
fill loop. -/
def runScript (input : List Row) : ScriptState :=
  let df1 := dropDuplicates input
  let df2 := fillAll df1
  let dfA := toAnalysis df2
  let binnedA := dfA.map (fun r => (r, sleepBin r.sleepHours))
  { df := df2, dfAnalysis := dfA, binned := binnedA }

/-- The dataset written to `cleaned_student_data.csv` (line 159): the
value of `df` at the end of the script. -/
def exported (input : List Row) : List Row :=
  (runScript input).df

/-- The per-cell effect of the fill: a missing value becomes the fill
value `m`, a present one is untouched. -/
def fillVal (m : Option ℚ) : Option ℚ → Option ℚ
  | none => m
  | some x => some x

/-- The parts of a row the fill loop never touches: identifier and the
two categorical labels. -/
def metaOf (r : Row) : String × Option String × Option String :=
  (r.studentId, r.extracurricular, r.stressLevel)

/-- A fully populated sample row. -/
def wFull : Row :=
  ⟨"S1", some 1, some 2, some 3, some 4, some 5, some "Yes", some "Low"⟩

/-- A one-row dataset with no missing values and no duplicates. -/
def exFull : List Row := [wFull]

/-- Sample row with all five numeric values present. -/
def rA : Row :=
  ⟨"S1", some 5, some 7, some 2, some 90, some 3, some "Yes", some "Low"⟩

/-- Sample row with a missing `Hours_Study` value. -/
def rB : Row :=
  ⟨"S2", none, some 6, some 3, some 80, some 2, some "No", some "High"⟩

/-- Dataset of the C2 scenario: one duplicated row (`rA` twice) and one
row with `Hours_Study` missing, where the column median after
deduplication is 5. -/
def exC2 : List Row := [rA, rA, rB]

/-- Row with `Sleep_Hours` missing. -/
def rC1a : Row :=
  ⟨"S1", some 1, none, some 2, some 90, some 3, some "Yes", some "Low"⟩

/-- Row equal to `rC1a` except that `Hours_Study` is missing too. -/
def rC1b : Row :=
  ⟨"S1", none, none, some 2, some 90, some 3, some "Yes", some "Low"⟩

/-- Dataset on which the cleaning stage leaves missing values (the
all-missing `Sleep_Hours` column) and re-creates a duplicate row
(filling `Hours_Study` of `rC1b` with the median 1 turns it into
`rC1a`). -/
def exC1 : List Row := [rC1a, rC1b]

/-- Fully populated sample row. -/
def rC5a : Row :=
  ⟨"S3", some 1, some 7, some 2, some 90, some 3, some "Yes", some "Low"⟩

/-- Row equal to `rC5a` except that `Hours_Study` is missing. -/
def rC5b : Row :=
  ⟨"S3", none, some 7, some 2, some 90, some 3, some "Yes", some "Low"⟩

/-- Dataset whose cleaning output contains a duplicate row, so that
cleaning it a second time removes a row. -/
def exC5 : List Row := [rC5a, rC5b]

/-- Analysis-view row with all columns equal to 1 (encoded labels
Yes/Low). -/
def aR1 : ARow := ⟨some 1, some 1, some 1, some 1, some 1, some 1, some 0⟩

/-- Analysis-view row with all numeric columns equal to 2. -/
def aR2 : ARow := ⟨some 2, some 2, some 2, some 2, some 2, some 1, some 0⟩

/-- Two-row analysis dataset with positive variance in every column. -/
def exC3 : List ARow := [aR1, aR2]

/-- Analysis-view row with screen time `t` and CGPA `g`. -/
def aScreen (t g : ℚ) : ARow := ⟨some 1, some 7, some t, some 90, some g, some 1, some 0⟩

/-- Analysis dataset of the C7 scenario: screen times 1..5. -/
def exC7 : List ARow :=
  [aScreen 1 4, aScreen 2 4, aScreen 3 4, aScreen 4 2, aScreen 5 2]

/-- Dataset with one Extracurricular=Yes row (CGPA 3) and one
Extracurricular=No row (CGPA 2). -/
def exC8 : List Row := [rA, rB]

/-- Analysis-view row with `Sleep_Hours` equal to 30, outside every
sleep bucket. -/
def aBad : ARow := ⟨some 1, some 30, some 1, some 90, some 2, some 1, some 0⟩

/-- Analysis dataset containing an out-of-range sleep value. -/
def exC10 : List ARow := [aR1, aBad]

/-! Basic lemmas about columns, medians, duplicate removal and filling. -/

theorem Col.get_set_self (c : Col) (v : Option ℚ) (r : Row) : c.get (c.set v r) = v := by
  cases c <;> rfl

theorem Col.get_set_other {c c' : Col} (h : c ≠ c') (v : Option ℚ) (r : Row) :
    c.get (c'.set v r) = c.get r := by
  cases c <;> cases c' <;> first | rfl | exact absurd rfl h

theorem medianQ_isSome {l : List ℚ} (h : l ≠ []) : ∃ m, medianQ l = some m := by
  have hp := List.perm_insertionSort (· ≤ ·) l
  simp only [medianQ]
  cases hs : List.insertionSort (· ≤ ·) l with
  | nil =>
      rw [hs] at hp
      exact absurd (hp.symm.eq_nil) h
  | cons a s =>
      dsimp only
      split <;> exact ⟨_, rfl⟩

theorem medianQ_none {l : List ℚ} (h : medianQ l = none) : l = [] := by
  by_contra hne
  obtain ⟨m, hm⟩ := medianQ_isSome hne
  rw [hm] at h
  exact Option.noConfusion h

theorem mem_dedupFrom_not_seen {seen l : List Row} :
    ∀ x ∈ dedupFrom seen l, x ∉ seen := by
  induction l generalizing seen with
  | nil => intro x hx; exact absurd hx (List.not_mem_nil x)
  | cons r rs ih =>
      intro x hx
      simp only [dedupFrom] at hx
      split at hx
      · exact ih x hx
      · rcases List.mem_cons.1 hx with h | h
        · subst h; assumption
        · intro hxs
          exact (ih x h) (List.mem_cons_of_mem _ hxs)

theorem dedupFrom_pairwise (seen l : List Row) :
    (dedupFrom seen l).Pairwise (· ≠ ·) := by
  induction l generalizing seen with
  | nil => exact List.Pairwise.nil
  | cons r rs ih =>
      simp only [dedupFrom]
      split
      · exact ih seen
      · refine List.Pairwise.cons ?_ (ih (r :: seen))
        intro x hx
        have := mem_dedupFrom_not_seen x hx
        intro hrx
        exact this (hrx ▸ List.mem_cons_self r seen)

theorem dropDuplicates_pairwise (d : List Row) :
    (dropDuplicates d).Pairwise (· ≠ ·) :=
  dedupFrom_pairwise [] d

theorem dedupFrom_eq_self {l : List Row} (h : l.Pairwise (· ≠ ·)) :
    ∀ seen, (∀ x ∈ l, x ∉ seen) → dedupFrom seen l = l := by
  induction l with
  | nil => intro seen _; rfl
  | cons r rs ih =>
      intro seen hdisj
      have hr : r ∉ seen := hdisj r (List.mem_cons_self r rs)
      simp only [dedupFrom, if_neg hr]
      congr 1
      refine ih (List.Pairwise.sublist (List.sublist_cons_self r rs) h) (r :: seen) ?_
      intro x hx
      rcases h with _ | ⟨hhead, _⟩
      intro hmem
      rcases List.mem_cons.1 hmem with h1 | h1
      · exact (hhead x hx) h1.symm
      · exact (hdisj x (List.mem_cons_of_mem _ hx)) h1

theorem dropDuplicates_eq_self {d : List Row} (h : d.Pairwise (· ≠ ·)) :
    dropDuplicates d = d :=
  dedupFrom_eq_self h [] (fun x _ => List.not_mem_nil x)

theorem fillCol_map_get_self (c : Col) (d : List Row) :
    (fillCol c d).map c.get = d.map (fun r => fillVal (medianQ (colVals c d)) (c.get r)) := by
  unfold fillCol
  split
  · rename_i hcount
    cases hm : medianQ (colVals c d) with
    | none =>
        have hnil : colVals c d = [] := medianQ_none hm
        have hall : ∀ r ∈ d, c.get r = none := by
          intro r hr
          cases hg : c.get r with
          | none => rfl
          | some q =>
              have : q ∈ colVals c d := by
                simp only [colVals, List.reduceOption_mem_iff, List.mem_map]
                exact ⟨r, hr, hg⟩
              rw [hnil] at this
              exact absurd this (List.not_mem_nil q)
        refine List.map_congr_left ?_
        intro r hr
        rw [hall r hr]
        rfl
    | some m =>
        rw [List.map_map]
        refine List.map_congr_left ?_
        intro r hr
        simp only [Function.comp]
        cases hg : c.get r with
        | none => simp [hg, Col.get_set_self, fillVal]
        | some q => simp [hg, fillVal]
  · rename_i hcount
    have hall : ∀ r ∈ d, (c.get r).isNone ≠ true := by
      intro r hr
      exact List.countP_eq_zero.1 (Nat.eq_zero_of_not_pos hcount) r hr
    refine (List.map_congr_left ?_).symm
    intro r hr
    cases hg : c.get r with
    | none => exact absurd (by rw [hg]; rfl) (hall r hr)
    | some q => rfl

theorem fillCol_map_get_other {c c' : Col} (h : c ≠ c') (d : List Row) :
    (fillCol c' d).map c.get = d.map c.get := by
  unfold fillCol
  split
  · cases hm : medianQ (colVals c' d) with
    | none => rfl
    | some m =>
        rw [List.map_map]
        refine List.map_congr_left ?_
        intro r hr
        simp only [Function.comp]
        split
        · exact Col.get_set_other h (some m) r
        · rfl
  · rfl

theorem colVals_fillCol_other {c c' : Col} (h : c ≠ c') (d : List Row) :
    colVals c (fillCol c' d) = colVals c d := by
  unfold colVals
  rw [fillCol_map_get_other h]

theorem fillCol_map_get_self' (c : Col) (d : List Row) :
    (fillCol c d).map c.get = (d.map c.get).map (fillVal (medianQ (colVals c d))) := by
  rw [fillCol_map_get_self, List.map_map]
  rfl

theorem fillCol_isSome_of_isSome {c : Col} {d : List Row}
    (h : ∀ r ∈ d, (c.get r).isSome) (c' : Col) :
    ∀ r ∈ fillCol c' d, (c.get r).isSome := by
  intro r hr
  by_cases hcc : c = c'
  · subst hcc
    have hmem : c.get r ∈ (fillCol c d).map c.get := List.mem_map_of_mem c.get hr
    rw [fillCol_map_get_self] at hmem
    obtain ⟨r', hr', hval⟩ := List.mem_map.1 hmem
    obtain ⟨x, hx⟩ := Option.isSome_iff_exists.1 (h r' hr')
    rw [← hval, hx]
    rfl
  · have hmem : c.get r ∈ (fillCol c' d).map c.get := List.mem_map_of_mem c.get hr
    rw [fillCol_map_get_other hcc] at hmem
    obtain ⟨r', hr', hval⟩ := List.mem_map.1 hmem
    rw [← hval]
    exact h r' hr'

theorem fillCol_isSome_self {c : Col} {d : List Row} (h : colVals c d ≠ []) :
    ∀ r ∈ fillCol c d, (c.get r).isSome := by
  obtain ⟨m, hm⟩ := medianQ_isSome h
  intro r hr
  have hmem : c.get r ∈ (fillCol c d).map c.get := List.mem_map_of_mem c.get hr
  rw [fillCol_map_get_self, hm] at hmem
  obtain ⟨r', _, hval⟩ := List.mem_map.1 hmem
  rw [← hval]
  cases c.get r' <;> rfl

theorem colVals_ne_nil_fillCol {c : Col} {d : List Row} (h : colVals c d ≠ []) (c' : Col) :
    colVals c (fillCol c' d) ≠ [] := by
  by_cases hcc : c = c'
  · subst hcc
    obtain ⟨x, hx⟩ := List.exists_mem_of_ne_nil _ h
    have hx' : some x ∈ d.map c.get := List.reduceOption_mem_iff.1 hx
    obtain ⟨r, hr, hget⟩ := List.mem_map.1 hx'
    have hmem : x ∈ colVals c (fillCol c d) := by
      unfold colVals
      rw [fillCol_map_get_self]
      refine List.reduceOption_mem_iff.2 (List.mem_map.2 ⟨r, hr, ?_⟩)
      rw [hget]
      rfl
    intro hnil
    rw [hnil] at hmem
    exact absurd hmem (List.not_mem_nil x)
  · rw [colVals_fillCol_other hcc]
    exact h

theorem foldl_fill_isSome_pres {c : Col} :
    ∀ (cols : List Col) (d : List Row), (∀ r ∈ d, (c.get r).isSome) →
      ∀ r ∈ cols.foldl (fun acc c' => fillCol c' acc) d, (c.get r).isSome := by
  intro cols
  induction cols with
  | nil => intro d h r hr; exact h r hr
  | cons c0 cs ih =>
      intro d h r hr
      simp only [List.foldl_cons] at hr
      exact ih (fillCol c0 d) (fillCol_isSome_of_isSome h c0) r hr

theorem foldl_fill_isSome :
    ∀ (cols : List Col) (d : List Row), (∀ c ∈ cols, colVals c d ≠ []) →
      ∀ c ∈ cols, ∀ r ∈ cols.foldl (fun acc c' => fillCol c' acc) d, (c.get r).isSome := by
  intro cols
  induction cols with
  | nil => intro d _ c hc; exact absurd hc (List.not_mem_nil c)
  | cons c0 cs ih =>
      intro d h c hc r hr
      simp only [List.foldl_cons] at hr
      rcases List.mem_cons.1 hc with rfl | hc'
      · exact foldl_fill_isSome_pres cs (fillCol c d)
          (fillCol_isSome_self (h c (List.mem_cons_self c cs))) r hr
      · exact ih (fillCol c0 d)
          (fun c' hc'' => colVals_ne_nil_fillCol (h c' (List.mem_cons_of_mem _ hc'')) c0)
          c hc' r hr

/-- C1 (amended): after duplicate removal the Dataset has no duplicate
rows, and provided every numeric column still has at least one
non-missing value, the cleaned Dataset has no missing values in the
five numeric columns.  (As stated the claim is false: the fill stage
can re-create duplicate rows and an all-missing column stays missing —
see the counterexample.) -/
theorem C1_amended_clean_invariant (d : List Row)
    (h : ∀ c ∈ numericalCols, colVals c (dropDuplicates d) ≠ []) :
    (dropDuplicates d).Pairwise (· ≠ ·) ∧
      ∀ r ∈ clean d, ∀ c ∈ numericalCols, (c.get r).isSome := by
  refine ⟨dropDuplicates_pairwise d, ?_⟩
  intro r hr c hc
  exact foldl_fill_isSome numericalCols (dropDuplicates d) h c hc r hr

/-- C2: for each numeric column, the cleaned column equals the
post-deduplication column with every missing cell replaced by that
column's median computed after duplicate removal (fills of the other
columns, earlier or later in the listed order, do not affect it). -/
theorem C2_median_fill (d : List Row) (c : Col) (hc : c ∈ numericalCols) :
    (clean d).map c.get =
      (dropDuplicates d).map
        (fun r => fillVal (medianQ (colVals c (dropDuplicates d))) (c.get r)) := by
  have hc' : c = Col.hoursStudy ∨ c = Col.sleepHours ∨ c = Col.screenTime ∨
      c = Col.attendance ∨ c = Col.cgpa := by
    simpa [numericalCols] using hc
  have hfold : clean d =
      fillCol Col.cgpa (fillCol Col.attendance (fillCol Col.screenTime
        (fillCol Col.sleepHours (fillCol Col.hoursStudy (dropDuplicates d))))) := by
    simp only [clean, fillAll, numericalCols, List.foldl_cons, List.foldl_nil]
  rcases hc' with h' | h' | h' | h' | h' <;> subst h' <;> rw [hfold]
  · rw [fillCol_map_get_other (by decide), fillCol_map_get_other (by decide),
      fillCol_map_get_other (by decide), fillCol_map_get_other (by decide),
      fillCol_map_get_self]
  · rw [fillCol_map_get_other (by decide), fillCol_map_get_other (by decide),
      fillCol_map_get_other (by decide), fillCol_map_get_self',
      colVals_fillCol_other (by decide), fillCol_map_get_other (by decide),
      List.map_map]
    rfl
  · rw [fillCol_map_get_other (by decide), fillCol_map_get_other (by decide),
      fillCol_map_get_self', colVals_fillCol_other (by decide),
      colVals_fillCol_other (by decide), fillCol_map_get_other (by decide),
      fillCol_map_get_other (by decide), List.map_map]
    rfl
  · rw [fillCol_map_get_other (by decide), fillCol_map_get_self',
      colVals_fillCol_other (by decide), colVals_fillCol_other (by decide),
      colVals_fillCol_other (by decide), fillCol_map_get_other (by decide),
      fillCol_map_get_other (by decide), fillCol_map_get_other (by decide),
      List.map_map]
    rfl
  · rw [fillCol_map_get_self', colVals_fillCol_other (by decide),
      colVals_fillCol_other (by decide), colVals_fillCol_other (by decide),
      colVals_fillCol_other (by decide), fillCol_map_get_other (by decide),
      fillCol_map_get_other (by decide), fillCol_map_get_other (by decide),
      fillCol_map_get_other (by decide), List.map_map]
    rfl

theorem fillCol_eq_self {c : Col} {d : List Row} (h : ∀ r ∈ d, (c.get r).isSome) :
    fillCol c d = d := by
  unfold fillCol
  rw [if_neg]
  simp only [not_lt, Nat.le_zero, List.countP_eq_zero]
  intro r hr
  have hs := h r hr
  cases hg : c.get r with
  | none => rw [hg] at hs; exact absurd hs (by decide)
  | some q => exact fun hcontra => Bool.noConfusion hcontra

theorem foldl_fill_eq_self :
    ∀ (cols : List Col) (d : List Row), (∀ c ∈ cols, ∀ r ∈ d, (c.get r).isSome) →
      cols.foldl (fun acc c' => fillCol c' acc) d = d := by
  intro cols
  induction cols with
  | nil => intro d _; rfl
  | cons c0 cs ih =>
      intro d h
      simp only [List.foldl_cons]
      rw [fillCol_eq_self (h c0 (List.mem_cons_self c0 cs))]
      exact ih d (fun c hc => h c (List.mem_cons_of_mem _ hc))

/-- C5 (amended): every Dataset with no duplicate rows and no
missing numeric values is a fixed point of the cleaning stage.  (As
stated — idempotence on outputs of cleaning — the claim is false, see
the counterexample.) -/
theorem C5_amended_fixed_point (d : List Row) (h1 : d.Pairwise (· ≠ ·))
    (h2 : ∀ r ∈ d, ∀ c ∈ numericalCols, (c.get r).isSome) :
    clean d = d := by
  show fillAll (dropDuplicates d) = d
  rw [dropDuplicates_eq_self h1]
  exact foldl_fill_eq_self numericalCols d (fun c hc r hr => h2 r hr c hc)

/-- C1 counterexample: on `exC1` the cleaned Dataset has a duplicate
row (the fill made the two rows equal) and a missing `Sleep_Hours`
value, refuting the claimed invariant. -/
theorem C1_counterexample :
    ¬ ((clean exC1).Pairwise (· ≠ ·) ∧
        ∀ r ∈ clean exC1, ∀ c ∈ numericalCols, (c.get r).isSome) := by
  decide

/-- C5 counterexample: `clean exC5` contains a duplicate row created
by the fill, so cleaning it again removes a row: cleaning is not
idempotent on its own output. -/
theorem C5_counterexample : clean (clean exC5) ≠ clean exC5 := by
  decide

/-- C1 witness: the amended invariant instantiated on the concrete
dataset `exFull`. -/
theorem C1_witness :
    (∀ c ∈ numericalCols, colVals c (dropDuplicates exFull) ≠ []) ∧
    ((dropDuplicates exFull).Pairwise (· ≠ ·) ∧
      ∀ r ∈ clean exFull, ∀ c ∈ numericalCols, (c.get r).isSome) :=
  ⟨by decide, C1_amended_clean_invariant exFull (by decide)⟩

/-- C2 witness: the scenario of the claim — a dataset with one
duplicate row and one missing `Hours_Study` cell whose column median
is 5; after cleaning the duplicate is gone and the cell equals 5. -/
theorem C2_witness :
    Col.hoursStudy ∈ numericalCols ∧
    ((clean exC2).map Col.hoursStudy.get =
      (dropDuplicates exC2).map
        (fun r => fillVal (medianQ (colVals Col.hoursStudy (dropDuplicates exC2)))
          (Col.hoursStudy.get r))) ∧
    medianQ (colVals Col.hoursStudy (dropDuplicates exC2)) = some 5 ∧
    clean exC2 = [rA, ⟨"S2", some 5, some 6, some 3, some 80, some 2, some "No", some "High"⟩] :=
  ⟨by decide, C2_median_fill exC2 Col.hoursStudy (by decide), by decide, by decide⟩

/-- C5 witness: the fixed-point property instantiated on the
concrete dataset `exFull`. -/
theorem C5_witness :
    (exFull.Pairwise (· ≠ ·) ∧ ∀ r ∈ exFull, ∀ c ∈ numericalCols, (c.get r).isSome) ∧
    clean exFull = exFull :=
  ⟨⟨by decide, by decide⟩, C5_amended_fixed_point exFull (by decide) (by decide)⟩

theorem Col.set_metaOf (c : Col) (v : Option ℚ) (r : Row) : metaOf (c.set v r) = metaOf r := by
  cases c <;> rfl

theorem fillCol_map_metaOf (c : Col) (d : List Row) :
    (fillCol c d).map metaOf = d.map metaOf := by
  unfold fillCol
  split
  · cases hm : medianQ (colVals c d) with
    | none => rfl
    | some m =>
        rw [List.map_map]
        refine List.map_congr_left ?_
        intro r hr
        simp only [Function.comp]
        split
        · exact Col.set_metaOf c (some m) r
        · rfl
  · rfl

theorem foldl_fill_map_metaOf :
    ∀ (cols : List Col) (d : List Row),
      (cols.foldl (fun acc c => fillCol c acc) d).map metaOf = d.map metaOf := by
  intro cols
  induction cols with
  | nil => intro d; rfl
  | cons c0 cs ih =>
      intro d
      simp only [List.foldl_cons]
      rw [ih (fillCol c0 d), fillCol_map_metaOf]

/-- C9: the dataset exported to the CSV is exactly the Dataset at
the end of the cleaning stage: the analysis view and its `Sleep_Bin`
column are separate derived copies, and the fill loop never touches
the identifier or the categorical labels. -/
theorem C9_export_frame (d : List Row) :
    exported d = clean d ∧
    (runScript d).dfAnalysis = toAnalysis (clean d) ∧
    (runScript d).binned = (toAnalysis (clean d)).map (fun a => (a, sleepBin a.sleepHours)) ∧
    (exported d).map metaOf = (dropDuplicates d).map metaOf := by
  have h1 : exported d = clean d := by simp only [exported, runScript, clean]
  have h2 : (runScript d).dfAnalysis = toAnalysis (clean d) := by
    simp only [runScript, clean]
  have h3 : (runScript d).binned =
      (toAnalysis (clean d)).map (fun a => (a, sleepBin a.sleepHours)) := by
    simp only [runScript, clean]
  refine ⟨h1, h2, h3, ?_⟩
  rw [h1]
  exact foldl_fill_map_metaOf numericalCols (dropDuplicates d)

/-- C10: a row whose `Sleep_Hours` is missing, non-positive or above
24 receives no sleep bucket, and is therefore outside every bucket's
filter and excluded from every bucket's mean-CGPA computation. -/
theorem C10_out_of_range_sleep (d : List ARow) (r : ARow) (_hr : r ∈ d)
    (hbad : r.sleepHours = none ∨ ∃ x, r.sleepHours = some x ∧ (x ≤ 0 ∨ 24 < x)) :
    sleepBin r.sleepHours = none ∧
      ∀ lbl, r ∉ d.filter (fun r' => decide (sleepBin r'.sleepHours = some lbl)) := by
  have hnone : sleepBin r.sleepHours = none := by
    rcases hbad with h | ⟨x, hx, hout⟩
    · rw [h]; rfl
    · rw [hx]
      simp only [sleepBin]
      rcases hout with h' | h'
      · rw [if_pos h']
      · rw [if_neg (show ¬x ≤ (0 : ℚ) by linarith), if_neg (show ¬x ≤ (6 : ℚ) by linarith),
          if_neg (show ¬x ≤ (8 : ℚ) by linarith), if_neg (not_le.2 h')]
  refine ⟨hnone, ?_⟩
  intro lbl hmem
  have hpred := (List.mem_filter.1 hmem).2
  simp [hnone] at hpred

/-- C10 witness: the exclusion instantiated on `exC10`, whose row
`aBad` has sleep value 30. -/
theorem C10_witness :
    aBad ∈ exC10 ∧
    (aBad.sleepHours = none ∨ ∃ x, aBad.sleepHours = some x ∧ (x ≤ 0 ∨ 24 < x)) ∧
    (sleepBin aBad.sleepHours = none ∧
      ∀ lbl, aBad ∉ exC10.filter (fun r' => decide (sleepBin r'.sleepHours = some lbl))) :=
  ⟨by decide, Or.inr ⟨30, rfl, Or.inr (by decide)⟩,
    C10_out_of_range_sleep exC10 aBad (by decide) (Or.inr ⟨30, rfl, Or.inr (by decide)⟩)⟩

theorem encodeExt_unmapped (v : Option String) (h1 : v ≠ some "Yes") (h2 : v ≠ some "No") :
    encodeExt v = none := by
  cases v with
  | none => rfl
  | some s =>
      unfold encodeExt
      split
      · rename_i heq; exact absurd heq h1
      · rename_i heq; exact absurd heq h2
      · rfl

theorem encodeStress_unmapped (v : Option String) (h1 : v ≠ some "Low")
    (h2 : v ≠ some "Medium") (h3 : v ≠ some "High") :
    encodeStress v = none := by
  cases v with
  | none => rfl
  | some s =>
      unfold encodeStress
      split
      · rename_i heq; exact absurd heq h1
      · rename_i heq; exact absurd heq h2
      · rename_i heq; exact absurd heq h3
      · rfl

/-- C4: on a Dataset whose category labels are well formed, the
analysis view's encoded `Extracurricular` column only holds 1 or 0 and
the encoded `Stress_Level` column only 0, 1 or 2; every unmapped label
encodes to a missing value. -/
theorem C4_analysis_encoding (d : List Row)
    (h : ∀ r ∈ d,
      (r.extracurricular = some "Yes" ∨ r.extracurricular = some "No") ∧
      (r.stressLevel = some "Low" ∨ r.stressLevel = some "Medium" ∨
        r.stressLevel = some "High")) :
    (∀ a ∈ toAnalysis d,
      (a.extracurricular = some 1 ∨ a.extracurricular = some 0) ∧
      (a.stressLevel = some 0 ∨ a.stressLevel = some 1 ∨ a.stressLevel = some 2)) ∧
    (∀ v : Option String, v ≠ some "Yes" → v ≠ some "No" → encodeExt v = none) ∧
    (∀ v : Option String, v ≠ some "Low" → v ≠ some "Medium" → v ≠ some "High" →
      encodeStress v = none) := by
  refine ⟨?_, encodeExt_unmapped, encodeStress_unmapped⟩
  intro a ha
  obtain ⟨r, hr, rfl⟩ := List.mem_map.1 ha
  obtain ⟨hext, hstr⟩ := h r hr
  constructor
  · rcases hext with h' | h' <;> rw [show (encodeRow r).extracurricular = encodeExt r.extracurricular from rfl, h']
    · exact Or.inl rfl
    · exact Or.inr rfl
  · rcases hstr with h' | h' | h' <;> rw [show (encodeRow r).stressLevel = encodeStress r.stressLevel from rfl, h']
    · exact Or.inl rfl
    · exact Or.inr (Or.inl rfl)
    · exact Or.inr (Or.inr rfl)

/-- C4 witness: the encoding claim instantiated on the concrete
dataset `exC8` (one Yes/Low row, one No/High row). -/
theorem C4_witness :
    (∀ r ∈ exC8,
      (r.extracurricular = some "Yes" ∨ r.extracurricular = some "No") ∧
      (r.stressLevel = some "Low" ∨ r.stressLevel = some "Medium" ∨
        r.stressLevel = some "High")) ∧
    ((∀ a ∈ toAnalysis exC8,
      (a.extracurricular = some 1 ∨ a.extracurricular = some 0) ∧
      (a.stressLevel = some 0 ∨ a.stressLevel = some 1 ∨ a.stressLevel = some 2)) ∧
    (∀ v : Option String, v ≠ some "Yes" → v ≠ some "No" → encodeExt v = none) ∧
    (∀ v : Option String, v ≠ some "Low" → v ≠ some "Medium" → v ≠ some "High" →
      encodeStress v = none)) :=
  ⟨by decide, C4_analysis_encoding exC8 (by decide)⟩

/-- C6: the sleep buckets are exactly the intervals (0,6], (6,8] and
(8,24] with labels `<6h`, `6-8h`, `>8h`; the values 5, 7 and 9 receive
those three labels; and the insight is the (rounded) mean CGPA over
each bucket's rows. -/
theorem C6_sleep_buckets :
    (∀ x : ℚ,
      (sleepBin (some x) = some "<6h" ↔ 0 < x ∧ x ≤ 6) ∧
      (sleepBin (some x) = some "6-8h" ↔ 6 < x ∧ x ≤ 8) ∧
      (sleepBin (some x) = some ">8h" ↔ 8 < x ∧ x ≤ 24)) ∧
    sleepBin (some 5) = some "<6h" ∧
    sleepBin (some 7) = some "6-8h" ∧
    sleepBin (some 9) = some ">8h" ∧
    (∀ (d : List ARow) (lbl : String),
      sleepInsight d lbl =
        (meanQ ((d.filter (fun r => decide (sleepBin r.sleepHours = some lbl))).filterMap
          ARow.cgpa)).map rnd2) := by
  refine ⟨?_, by decide, by decide, by decide, fun d lbl => rfl⟩
  intro x
  simp only [sleepBin]
  split_ifs with h1 h2 h3 h4 <;>
    refine ⟨⟨fun hl => ?_, fun hr => ?_⟩, ⟨fun hl => ?_, fun hr => ?_⟩,
      ⟨fun hl => ?_, fun hr => ?_⟩⟩ <;>
    first
      | (exact absurd hl (by decide))
      | (exact ⟨by linarith, by linarith⟩)
      | rfl
      | (exfalso
         rcases hr with ⟨ha, hb⟩
         linarith)

/-- C7: insight 3 splits the rows at the median screen time — a row
with screen time x is in the low group iff x is at most the median and
in the high group iff x exceeds it — and reports the mean CGPA of each
group. -/
theorem C7_median_split (d : List ARow) (m : ℚ) (h : medianScreen d = some m) :
    (∀ r ∈ d, ∀ x, r.screenTime = some x →
      ((r ∈ lowGroup d ↔ x ≤ m) ∧ (r ∈ highGroup d ↔ m < x))) ∧
    lowScreenCgpa d = (meanQ ((lowGroup d).filterMap ARow.cgpa)).map rnd2 ∧
    highScreenCgpa d = (meanQ ((highGroup d).filterMap ARow.cgpa)).map rnd2 := by
  refine ⟨?_, rfl, rfl⟩
  intro r hr x hx
  constructor
  · unfold lowGroup
    rw [h]
    constructor
    · intro hm
      have hp := (List.mem_filter.1 hm).2
      rw [hx] at hp
      exact of_decide_eq_true hp
    · intro hxm
      refine List.mem_filter.2 ⟨hr, ?_⟩
      rw [hx]
      exact decide_eq_true hxm
  · unfold highGroup
    rw [h]
    constructor
    · intro hm
      have hp := (List.mem_filter.1 hm).2
      rw [hx] at hp
      exact of_decide_eq_true hp
    · intro hxm
      refine List.mem_filter.2 ⟨hr, ?_⟩
      rw [hx]
      exact decide_eq_true hxm

/-- C7 witness: the scenario of the claim — screen times 1..5 have
median 3 and split into low {1,2,3} and high {4,5}. -/
theorem C7_witness :
    medianScreen exC7 = some 3 ∧
    (∀ r ∈ exC7, ∀ x, r.screenTime = some x →
      ((r ∈ lowGroup exC7 ↔ x ≤ 3) ∧ (r ∈ highGroup exC7 ↔ 3 < x))) ∧
    lowGroup exC7 = [aScreen 1 4, aScreen 2 4, aScreen 3 4] ∧
    highGroup exC7 = [aScreen 4 2, aScreen 5 2] :=
  ⟨by decide, (C7_median_split exC7 3 (by decide)).1, by decide, by decide⟩

theorem encodeExt_eq_one (v : Option String) : encodeExt v = some 1 ↔ v = some "Yes" := by
  cases v with
  | none => simp [encodeExt]
  | some s =>
      unfold encodeExt
      split
      · rename_i heq
        exact ⟨fun _ => heq, fun _ => rfl⟩
      · rename_i heq
        refine ⟨fun hcontra => absurd hcontra (by decide), fun hcontra => ?_⟩
        rw [hcontra] at heq
        exact absurd heq (by decide)
      · rename_i hne1 hne2
        exact ⟨fun hcontra => Option.noConfusion hcontra, fun hcontra => absurd hcontra hne1⟩

theorem encodeExt_eq_zero (v : Option String) : encodeExt v = some 0 ↔ v = some "No" := by
  cases v with
  | none => simp [encodeExt]
  | some s =>
      unfold encodeExt
      split
      · rename_i heq
        refine ⟨fun hcontra => absurd hcontra (by decide), fun hcontra => ?_⟩
        rw [hcontra] at heq
        exact absurd heq (by decide)
      · rename_i heq
        exact ⟨fun _ => heq, fun _ => rfl⟩
      · rename_i hne1 hne2
        exact ⟨fun hcontra => Option.noConfusion hcontra, fun hcontra => absurd hcontra hne2⟩

theorem extraCgpas_yes (d : List Row) :
    extraCgpas (toAnalysis d) 1 =
      (d.filter (fun r => decide (r.extracurricular = some "Yes"))).filterMap Row.cgpa := by
  unfold extraCgpas toAnalysis
  rw [List.filter_map, List.filterMap_map]
  rw [List.filter_congr (fun r _ => ?_)]
  · rfl
  · show decide ((encodeRow r).extracurricular = some 1) =
      decide (r.extracurricular = some "Yes")
    exact decide_eq_decide.2 (encodeExt_eq_one r.extracurricular)

theorem extraCgpas_no (d : List Row) :
    extraCgpas (toAnalysis d) 0 =
      (d.filter (fun r => decide (r.extracurricular = some "No"))).filterMap Row.cgpa := by
  unfold extraCgpas toAnalysis
  rw [List.filter_map, List.filterMap_map]
  rw [List.filter_congr (fun r _ => ?_)]
  · rfl
  · show decide ((encodeRow r).extracurricular = some 0) =
      decide (r.extracurricular = some "No")
    exact decide_eq_decide.2 (encodeExt_eq_zero r.extracurricular)

/-- C8: insight 6 reports the mean CGPA of the Extracurricular=Yes
group minus the mean CGPA of the =No group (each mean rounded to two
decimals by the groupby table it is read from). -/
theorem C8_extracurricular_diff (d : List Row) (y n : ℚ)
    (hy : meanQ ((d.filter (fun r => decide (r.extracurricular = some "Yes"))).filterMap
      Row.cgpa) = some y)
    (hn : meanQ ((d.filter (fun r => decide (r.extracurricular = some "No"))).filterMap
      Row.cgpa) = some n) :
    extraDiff (toAnalysis d) = some (rnd2 y - rnd2 n) := by
  unfold extraDiff extraMeanR
  rw [extraCgpas_yes, extraCgpas_no, hy, hn]
  rfl

/-- C8 witness: the difference computed on the concrete dataset
`exC8` (Yes group mean 3, No group mean 2). -/
theorem C8_witness :
    meanQ ((exC8.filter (fun r => decide (r.extracurricular = some "Yes"))).filterMap
      Row.cgpa) = some 3 ∧
    meanQ ((exC8.filter (fun r => decide (r.extracurricular = some "No"))).filterMap
      Row.cgpa) = some 2 ∧
    extraDiff (toAnalysis exC8) = some (rnd2 3 - rnd2 2) := by
  have hy : meanQ ((exC8.filter (fun r => decide (r.extracurricular = some "Yes"))).filterMap
      Row.cgpa) = some 3 := by
    have h1 : (exC8.filter (fun r => decide (r.extracurricular = some "Yes"))).filterMap
        Row.cgpa = [3] := by decide
    rw [h1]
    norm_num [meanQ]
  have hn : meanQ ((exC8.filter (fun r => decide (r.extracurricular = some "No"))).filterMap
      Row.cgpa) = some 2 := by
    have h1 : (exC8.filter (fun r => decide (r.extracurricular = some "No"))).filterMap
        Row.cgpa = [2] := by decide
    rw [h1]
    norm_num [meanQ]
  exact ⟨hy, hn, C8_extracurricular_diff exC8 3 2 hy hn⟩

theorem sq_div_le_iff_of_nonneg (a b p q : ℚ) (ha : 0 ≤ a) (hb : 0 ≤ b)
    (hp : 0 < p) (hq : 0 < q) :
    (a ^ 2 / p ≤ b ^ 2 / q) ↔
      (a : ℝ) / Real.sqrt (p : ℝ) ≤ (b : ℝ) / Real.sqrt (q : ℝ) := by
  have hpR : (0 : ℝ) < (p : ℝ) := by exact_mod_cast hp
  have hqR : (0 : ℝ) < (q : ℝ) := by exact_mod_cast hq
  have hsp : 0 < Real.sqrt (p : ℝ) := Real.sqrt_pos.2 hpR
  have hsq : 0 < Real.sqrt (q : ℝ) := Real.sqrt_pos.2 hqR
  have haR : (0 : ℝ) ≤ (a : ℝ) := by exact_mod_cast ha
  have hbR : (0 : ℝ) ≤ (b : ℝ) := by exact_mod_cast hb
  rw [div_le_div_iff₀ hp hq, div_le_div_iff₀ hsp hsq]
  constructor
  · intro h
    refine (pow_le_pow_iff_left₀ (mul_nonneg haR hsq.le) (mul_nonneg hbR hsp.le)
      two_ne_zero).1 ?_
    rw [mul_pow, mul_pow, Real.sq_sqrt hqR.le, Real.sq_sqrt hpR.le]
    exact_mod_cast h
  · intro h
    have h2 := pow_le_pow_left₀ (mul_nonneg haR hsq.le) h 2
    rw [mul_pow, mul_pow, Real.sq_sqrt hqR.le, Real.sq_sqrt hpR.le] at h2
    exact_mod_cast h2

theorem sortKey_le_iff (c₁ c₂ : CorrRep) (h1x : 0 < c₁.denx) (h1y : 0 < c₁.deny)
    (h2x : 0 < c₂.denx) (h2y : 0 < c₂.deny) :
    sortKey c₁ ≤ sortKey c₂ ↔
      (c₁.num : ℝ) / (Real.sqrt (c₁.denx : ℝ) * Real.sqrt (c₁.deny : ℝ)) ≤
      (c₂.num : ℝ) / (Real.sqrt (c₂.denx : ℝ) * Real.sqrt (c₂.deny : ℝ)) := by
  obtain ⟨a, px, py⟩ := c₁
  obtain ⟨b, qx, qy⟩ := c₂
  simp only at h1x h1y h2x h2y ⊢
  have hp : 0 < px * py := mul_pos h1x h1y
  have hq : 0 < qx * qy := mul_pos h2x h2y
  have hsplitp : Real.sqrt ((px : ℝ)) * Real.sqrt ((py : ℝ)) =
      Real.sqrt (((px * py : ℚ) : ℝ)) := by
    rw [Rat.cast_mul, Real.sqrt_mul (by exact_mod_cast h1x.le)]
  have hsplitq : Real.sqrt ((qx : ℝ)) * Real.sqrt ((qy : ℝ)) =
      Real.sqrt (((qx * qy : ℚ) : ℝ)) := by
    rw [Rat.cast_mul, Real.sqrt_mul (by exact_mod_cast h2x.le)]
  rw [hsplitp, hsplitq]
  simp only [sortKey]
  by_cases ha : 0 ≤ a <;> by_cases hb : 0 ≤ b
  · rw [if_pos ha, if_pos hb]
    exact sq_div_le_iff_of_nonneg a b (px * py) (qx * qy) ha hb hp hq
  · rw [if_pos ha, if_neg hb]
    push_neg at hb
    have hb2 : 0 < b ^ 2 := by nlinarith
    refine iff_of_false ?_ ?_
    · have hpos : 0 < b ^ 2 / (qx * qy) := div_pos hb2 hq
      have h0 : 0 ≤ a ^ 2 / (px * py) := by positivity
      linarith
    · have hbR : (b : ℝ) < 0 := by exact_mod_cast hb
      have hneg : (b : ℝ) / Real.sqrt (((qx * qy : ℚ) : ℝ)) < 0 :=
        div_neg_of_neg_of_pos hbR (Real.sqrt_pos.2 (by exact_mod_cast hq))
      have h0 : 0 ≤ (a : ℝ) / Real.sqrt (((px * py : ℚ) : ℝ)) :=
        div_nonneg (by exact_mod_cast ha) (Real.sqrt_nonneg _)
      linarith
  · rw [if_neg ha, if_pos hb]
    push_neg at ha
    refine iff_of_true ?_ ?_
    · have h1 : 0 ≤ a ^ 2 / (px * py) := by positivity
      have h2 : 0 ≤ b ^ 2 / (qx * qy) := by positivity
      linarith
    · have haR : (a : ℝ) < 0 := by exact_mod_cast ha
      have h1 : (a : ℝ) / Real.sqrt (((px * py : ℚ) : ℝ)) ≤ 0 :=
        div_nonpos_of_nonpos_of_nonneg haR.le (Real.sqrt_nonneg _)
      have h2 : 0 ≤ (b : ℝ) / Real.sqrt (((qx * qy : ℚ) : ℝ)) :=
        div_nonneg (by exact_mod_cast hb) (Real.sqrt_nonneg _)
      linarith
  · rw [if_neg ha, if_neg hb]
    push_neg at ha hb
    rw [neg_le_neg_iff]
    have key := sq_div_le_iff_of_nonneg (-b) (-a) (qx * qy) (px * py)
      (by linarith) (by linarith) hq hp
    rw [neg_sq, neg_sq, Rat.cast_neg, Rat.cast_neg, neg_div, neg_div,
      neg_le_neg_iff] at key
    exact key

theorem correlations_keys_perm (d : List ARow) :
    ((correlations d).map Prod.fst).Perm (numericalCols.map Col.name) := by
  have h0 := (List.perm_insertionSort
      (fun a b : String × CorrRep => sortKey b.2 ≤ sortKey a.2)
      (numericalCols.map (fun c => (c.name, corrRep (pairsFor c d))))).map Prod.fst
  rw [List.map_map] at h0
  exact h0

/-- C3 (amended): the correlation listing contains one entry per
column of `corr_cols` — the four feature columns AND `CGPA` itself —
and, when every column has positive variance, it is sorted in
descending order of the real Pearson correlation value
num / (sqrt denx * sqrt deny). -/
theorem C3_amended_correlations (d : List ARow)
    (hv : ∀ c ∈ numericalCols,
      0 < (corrRep (pairsFor c d)).denx ∧ 0 < (corrRep (pairsFor c d)).deny) :
    ((correlations d).map Prod.fst).Perm (numericalCols.map Col.name) ∧
    (∀ p ∈ correlations d, ∃ c ∈ numericalCols, p = (c.name, corrRep (pairsFor c d))) ∧
    (correlations d).Pairwise (fun a b =>
      (b.2.num : ℝ) / (Real.sqrt (b.2.denx : ℝ) * Real.sqrt (b.2.deny : ℝ)) ≤
      (a.2.num : ℝ) / (Real.sqrt (a.2.denx : ℝ) * Real.sqrt (a.2.deny : ℝ))) := by
  have hmem : ∀ p ∈ correlations d, ∃ c ∈ numericalCols, p = (c.name, corrRep (pairsFor c d)) := by
    intro p hp
    have hp' : p ∈ numericalCols.map (fun c => (c.name, corrRep (pairsFor c d))) :=
      (List.perm_insertionSort _ _).mem_iff.1 hp
    obtain ⟨c, hc, hcp⟩ := List.mem_map.1 hp'
    exact ⟨c, hc, hcp.symm⟩
  refine ⟨correlations_keys_perm d, hmem, ?_⟩
  have hsorted : (correlations d).Pairwise
      (fun a b : String × CorrRep => sortKey b.2 ≤ sortKey a.2) := by
    refine @List.sorted_insertionSort (String × CorrRep)
      (fun a b => sortKey b.2 ≤ sortKey a.2) (fun a b => inferInstance)
      ⟨fun a b => le_total (sortKey b.2) (sortKey a.2)⟩
      ⟨fun a b c hab hbc => le_trans hbc hab⟩ _
  refine hsorted.imp_of_mem ?_
  intro a b hma hmb hr
  obtain ⟨ca, hca, rfl⟩ := hmem a hma
  obtain ⟨cb, hcb, rfl⟩ := hmem b hmb
  obtain ⟨hax, hay⟩ := hv ca hca
  obtain ⟨hbx, hby⟩ := hv cb hcb
  exact (sortKey_le_iff _ _ hbx hby hax hay).1 hr

/-- C3 counterexample: the key `CGPA` occurs among the output's
column names, so the output does not consist of exactly the four
feature columns. -/
theorem C3_counterexample :
    "CGPA" ∈ (correlations exC3).map Prod.fst ∧
    ¬((correlations exC3).map Prod.fst).Perm
        ["Hours_Study", "Sleep_Hours", "Screen_Time", "Attendance"] := by
  refine ⟨(correlations_keys_perm exC3).mem_iff.2 (by decide), ?_⟩
  intro hcontra
  have h5 := (correlations_keys_perm exC3).length_eq
  have h4 := hcontra.length_eq
  rw [h5] at h4
  exact absurd h4 (by decide)

/-- C3 witness: the amended statement instantiated on the concrete
analysis dataset `exC3`, whose five columns all have positive
variance. -/
theorem C3_witness :
    (∀ c ∈ numericalCols,
      0 < (corrRep (pairsFor c exC3)).denx ∧ 0 < (corrRep (pairsFor c exC3)).deny) ∧
    (((correlations exC3).map Prod.fst).Perm (numericalCols.map Col.name) ∧
    (∀ p ∈ correlations exC3, ∃ c ∈ numericalCols, p = (c.name, corrRep (pairsFor c exC3))) ∧
    (correlations exC3).Pairwise (fun a b =>
      (b.2.num : ℝ) / (Real.sqrt (b.2.denx : ℝ) * Real.sqrt (b.2.deny : ℝ)) ≤
      (a.2.num : ℝ) / (Real.sqrt (a.2.denx : ℝ) * Real.sqrt (a.2.deny : ℝ)))) := by
  have hv : ∀ c ∈ numericalCols,
      0 < (corrRep (pairsFor c exC3)).denx ∧ 0 < (corrRep (pairsFor c exC3)).deny := by
    intro c hc
    have hc' : c = Col.hoursStudy ∨ c = Col.sleepHours ∨ c = Col.screenTime ∨
        c = Col.attendance ∨ c = Col.cgpa := by
      simpa [numericalCols] using hc
    have hp : pairsFor c exC3 = [(1, 1), (2, 2)] := by
      rcases hc' with rfl | rfl | rfl | rfl | rfl <;> decide
    rw [hp]
    constructor <;> norm_num [corrRep]
  exact ⟨hv, C3_amended_correlations exC3 hv⟩
